import Mathlib

/-!
Shallow embedding of the loggable-espidf capture / normalize / parse /
dispatch pipeline (`src/loggable_espidf.cpp`) and of the FreeRTOS OS
backend (`src/loggable_os_freertos.cpp`), together with theorems that
check the natural-language specification of the library against the code.

Strings are modelled as `List Char` (the inputs of interest are ASCII, so
byte positions of the C++ code coincide with character positions).
`std::string_view::npos` is modelled as `Option.none` of the search
functions.  An out-of-bounds character read (undefined behaviour on a
`string_view`) is modelled by making the affected function return `none`.
-/

namespace Loggable

/-- Embedding of `std::string_view::find(c, pos)`: index of the first
occurrence of character `c` at position `pos` or later; `none` plays the
role of `npos`. -/
def findFrom (c : Char) : List Char → Nat → Option Nat
  | [], _ => none
  | x :: xs, 0 => if x = c then some 0 else (findFrom c xs 0).map (· + 1)
  | _ :: xs, n + 1 => (findFrom c xs n).map (· + 1)

/-- Embedding of `std::string::find(pat, pos)` for a two-character pattern
`a b` (used for the color-escape start `"\x1b["`). -/
def findPairFrom (a b : Char) : List Char → Nat → Option Nat
  | x :: y :: xs, 0 =>
      if x = a ∧ y = b then some 0 else (findPairFrom a b (y :: xs) 0).map (· + 1)
  | _ :: xs, n + 1 => (findPairFrom a b xs n).map (· + 1)
  | _, _ => none

/-- A successful `findFrom` returns a position at or after `pos` and
inside the string. -/
theorem findFrom_some (c : Char) :
    ∀ (s : List Char) (pos e : Nat), findFrom c s pos = some e →
      pos ≤ e ∧ e < s.length := by
  intro s
  induction s with
  | nil => intro pos e h; simp [findFrom] at h
  | cons x xs ih =>
    intro pos e h
    cases pos with
    | zero =>
      by_cases hx : x = c
      · simp [findFrom, hx] at h
        simp only [List.length_cons]
        omega
      · simp [findFrom, hx] at h
        obtain ⟨e1, he1, rfl⟩ := h
        have := ih 0 e1 he1
        constructor
        · omega
        · simp; omega
    | succ n =>
      simp [findFrom] at h
      obtain ⟨e1, he1, rfl⟩ := h
      have := ih n e1 he1
      constructor
      · omega
      · simp; omega

/-- A successful `findPairFrom` returns a position with both pattern
characters inside the string. -/
theorem findPairFrom_some (a b : Char) :
    ∀ (s : List Char) (pos p : Nat), findPairFrom a b s pos = some p →
      p + 1 < s.length := by
  intro s
  induction s with
  | nil => intro pos p h; simp [findPairFrom] at h
  | cons x xs ih =>
    intro pos p h
    cases pos with
    | zero =>
      cases xs with
      | nil => simp [findPairFrom] at h
      | cons y ys =>
        by_cases hxy : x = a ∧ y = b
        · simp [findPairFrom, hxy] at h
          simp [← h]
        · simp [findPairFrom, hxy] at h
          obtain ⟨p1, hp1, rfl⟩ := h
          have := ih 0 p1 hp1
          simp at this ⊢
          omega
    | succ n =>
      simp [findPairFrom] at h
      obtain ⟨p1, hp1, rfl⟩ := h
      have := ih n p1 hp1
      simp at this ⊢
      omega

/-- The ASCII escape character `"\x1b"` starting a terminal color
sequence. -/
def escChar : Char := Char.ofNat 27

/-- Embedding of the escape-stripping loop of `cleanup_message`: find
`"\x1b["` at or after `pos`, find the first `'m'` at or after it, erase
the span, and continue searching from the erase position; stop when the
pattern is absent or no terminating `'m'` exists. -/
def escLoop (s : List Char) (pos : Nat) : List Char :=
  match h1 : findPairFrom escChar '[' s pos with
  | none => s
  | some p =>
    match h2 : findFrom 'm' s p with
    | none => s
    | some e => escLoop (s.take p ++ s.drop (e + 1)) p
termination_by s.length
decreasing_by
  have hp := findPairFrom_some escChar '[' s pos p h1
  have he := findFrom_some 'm' s p e h2
  simp only [List.length_append, List.length_take, List.length_drop]
  omega

/-- Embedding of `cleanup_message`: strip terminal color-escape runs of
the form `ESC '[' ... 'm'`, then strip exactly one trailing newline
(`pop_back`). -/
def cleanup_message (s : List Char) : List Char :=
  let s1 := if (findPairFrom escChar '[' s 0).isSome then escLoop s 0 else s
  if s1 ≠ [] ∧ s1.getLast? = some '\n' then s1.dropLast else s1

/-- A string on which the escape-stripping loop of `cleanup_message`
would still erase something: it contains an occurrence of `"\x1b["` with
a terminating `'m'` at or after it. -/
def hasErasableEsc (s : List Char) : Bool :=
  match findPairFrom escChar '[' s 0 with
  | none => false
  | some p => (findFrom 'm' s p).isSome

/-- An escape-sequence fragment whose erasure splices together a new
escape sequence: erasing the span from the inner `"\x1b["` to the first
`'m'` leaves `"\x1b[31m"`, which a second normalization erases. -/
def escSplice : List Char :=
  [escChar, escChar, '[', '3', '1', 'm', '[', '3', '1', 'm']

/-- Severity levels of `loggable::LogLevel`, ordered as in the enum. -/
inductive LogLevel
  | Error
  | Warning
  | Info
  | Debug
  | Verbose
deriving DecidableEq

/-- Timestamp of a `LogMessage`: either the wall-clock capture time
(`std::chrono::system_clock::now()` taken at entry, left abstract) or the
boot-relative value `time_point(milliseconds(n))` set on a successful
timestamp parse. -/
inductive Timestamp
  | captureTime
  | bootMillis (ms : Nat)
deriving DecidableEq

/-- The record handed to `Sinker::instance().dispatch`. -/
structure LogMessage where
  timestamp : Timestamp
  level : LogLevel
  tag : List Char
  payload : List Char
deriving DecidableEq

/-- Value of a digit string, most significant first. -/
def digitsVal (s : List Char) : Nat :=
  s.foldl (fun a c => a * 10 + (c.toNat - 48)) 0

/-- Embedding of `std::from_chars` for `unsigned long` (32 bits on the
ESP32 target): consumes the maximal leading digit run; it fails on an
empty span, on a non-digit first character, or when the digit run
overflows the type (`result_out_of_range`); otherwise it succeeds with
the value of the digit run, ignoring any trailing non-digits. -/
def parseUnsigned (s : List Char) : Option Nat :=
  match s with
  | [] => none
  | c :: _ =>
      if c.isDigit then
        let v := digitsVal (s.takeWhile Char.isDigit)
        if v < 4294967296 then some v else none
      else none

/-- Timestamp the parser assigns for a given parenthesis span: a
successful `from_chars` parse of the span sets the boot-relative
timestamp, anything else leaves the wall-clock capture time. -/
def tsOf (S : List Char) : Timestamp :=
  match parseUnsigned S with
  | some v => Timestamp.bootMillis v
  | none => Timestamp.captureTime

/-- Payload the parser extracts from the text after the split colon: one
leading space, if present, is skipped. -/
def payloadOf (q : List Char) : List Char :=
  match q with
  | [] => []
  | c :: rest => if c = ' ' then rest else c :: rest

/-- The `switch` on the severity character of `dispatch_to_sinker`. -/
def levelOf (c : Char) : LogLevel :=
  if c = 'E' then .Error
  else if c = 'W' then .Warning
  else if c = 'I' then .Info
  else if c = 'D' then .Debug
  else if c = 'V' then .Verbose
  else .Info

/-- Embedding of `dispatch_to_sinker`'s construction of the `LogMessage`
it hands to the sink.  Every step is transcribed from the source:
`message_start + 1 = 58` is the source's `(message_start + 1) == ':'`,
where the character literal promotes to its code 58 and the comparison is
against the position; the final `message.get? (message_start + 1)` is the
source's unguarded `message[message_start + 1]`, and the whole function
returns `none` when that read is out of bounds (undefined behaviour on a
`std::string_view`). -/
def dispatch_to_sinker (message : List Char) : Option LogMessage :=
  if message.length > 4 ∧ message.get? 1 = some ' ' ∧
      (message.get? 0 = some 'E' ∨ message.get? 0 = some 'W' ∨
       message.get? 0 = some 'I' ∨ message.get? 0 = some 'D' ∨
       message.get? 0 = some 'V') then
    let level := match message.get? 0 with
      | some c => levelOf c
      | none => LogLevel.Info
    let time_start := findFrom '(' message 0
    let time_end := match time_start with
      | some p => findFrom ')' message p
      | none => none
    let ms0 := match time_end with
      | some e => findFrom ':' message e
      | none => none
    let message_start := match ms0 with
      | some m => if m + 1 = 58 then findFrom ':' message (m + 1) else some m
      | none => none
    match time_end, message_start with
    | some e, some m =>
      if e + 1 < message.length then
        let timestamp := match time_start with
          | some p =>
            if e > p + 1 then
              match parseUnsigned ((message.drop (p + 1)).take (e - (p + 1))) with
              | some v => Timestamp.bootMillis v
              | none => Timestamp.captureTime
            else Timestamp.captureTime
          | none => Timestamp.captureTime
        let tag := if message.get? (e + 1) = some ' ' then
            (if e + 2 < m then (message.drop (e + 2)).take (m - (e + 2)) else [])
          else []
        if m < message.length then
          match message.get? (m + 1) with
          | none => none
          | some c =>
              some ⟨timestamp, level, tag,
                message.drop (if c = ' ' then m + 2 else m + 1)⟩
        else some ⟨timestamp, level, tag, []⟩
      else some ⟨Timestamp.captureTime, level, [], message⟩
    | _, _ => some ⟨Timestamp.captureTime, level, [], message⟩
  else some ⟨Timestamp.captureTime, LogLevel.Info, [], message⟩

/-- Result of one invocation of `vprintf_hook` on one execution context:
the returned size, the reentrancy flag and context buffer after the call,
the completed line moved out of the buffer (before normalization) if a
flush happened, and the records passed to `Sinker::instance().dispatch`
(`none` standing for a parse that performed an out-of-bounds read). -/
structure HookResult where
  ret : Nat
  flag : Bool
  buf : List Char
  flushed : Option (List Char)
  dispatched : List (Option LogMessage)
deriving DecidableEq

/-- Embedding of `vprintf_hook` for one execution context.  `is_logging`
and `buf` are the context's reentrancy flag and line buffer at entry.
`input` is the text produced by `vsnprintf` from the format string and
arguments; `none` models a negative `vsnprintf` size (formatting
failure).  The pass-through call to `original_vprintf` is an external
side effect with no bearing on this state.  The scope-bound
`LoggingGuard` resets the flag on every path that set it. -/
def vprintf_hook (is_logging : Bool) (buf : List Char)
    (input : Option (List Char)) : HookResult :=
  if is_logging then ⟨0, is_logging, buf, none, []⟩
  else
    match input with
    | none => ⟨0, false, buf, none, []⟩
    | some msg =>
      let buf1 := buf ++ msg
      if buf1.getLast? = some '\n' then
        let complete := cleanup_message buf1
        ⟨msg.length, false, [], some buf1,
          if complete = [] then [] else [dispatch_to_sinker complete]⟩
      else ⟨msg.length, false, buf1, none, []⟩

/-- Feed a sequence of formatted fragments to `vprintf_hook` on one
execution context (reentrancy flag clear), starting from buffer `buf`;
returns the final buffer and the list of completed lines flushed out of
the buffer, in order. -/
def feedAll (buf : List Char) : List (List Char) → List Char × List (List Char)
  | [] => (buf, [])
  | f :: fs =>
    let r := vprintf_hook false buf (some f)
    let rest := feedAll r.buf fs
    (rest.1, (match r.flushed with | some l => [l] | none => []) ++ rest.2)

/-- A platform `vprintf`-like callback: the null pointer, this pipeline's
`vprintf_hook` entry point, or some external handler. -/
inductive Callback
  | null
  | hook
  | ext (n : Nat)
deriving DecidableEq

/-- Process-wide state touched by `LogHook::install` / `uninstall`:
the `_installed` flag, the saved `original_vprintf`, the platform's
currently registered callback (what `esp_log_set_vprintf` swaps), the
`_call_original_vprintf` pass-through flag, whether the FreeRTOS backend
has been registered, counters of `Sinker` init / shutdown calls, and the
arguments of the `esp_log_set_vprintf` calls made so far, in order. -/
structure HookState where
  installed : Bool
  original : Callback
  active : Callback
  call_original : Bool
  backend_set : Bool
  sink_inits : Nat
  sink_shutdowns : Nat
  vprintf_sets : List Callback
deriving DecidableEq

/-- Embedding of `LogHook::install(bool)`: the pass-through flag is
assigned first, unconditionally; then, only if not installed, the backend
is registered, the sink initialized, the hook swapped in (capturing the
previous callback as `original`) and the installed flag set. -/
def install (co : Bool) (s : HookState) : HookState :=
  let s1 := { s with call_original := co }
  if s1.installed then s1
  else
    { s1 with
      backend_set := true,
      sink_inits := s1.sink_inits + 1,
      original := s1.active,
      active := Callback.hook,
      vprintf_sets := s1.vprintf_sets ++ [Callback.hook],
      installed := true }

/-- Embedding of `LogHook::uninstall()`: only if installed, the saved
original callback is swapped back in, the saved reference cleared, the
installed flag dropped, and the sink shut down. -/
def uninstall (s : HookState) : HookState :=
  if s.installed then
    { s with
      active := s.original,
      original := Callback.null,
      installed := false,
      sink_shutdowns := s.sink_shutdowns + 1,
      vprintf_sets := s.vprintf_sets ++ [s.original] }
  else s

/-- A hook state in the Installed configuration (pass-through enabled),
as produced by a completed `install(true)` from a fresh state whose
platform callback was `ext 1`. -/
def sampleInstalled : HookState :=
  ⟨true, Callback.ext 1, Callback.hook, true, true, 1, 0, [Callback.hook]⟩

/-- A fresh, never-installed hook state whose platform callback is the
external handler `ext 7`. -/
def sampleFresh : HookState :=
  ⟨false, Callback.null, Callback.ext 7, true, false, 0, 0, []⟩

/-- Calls the FreeRTOS backend forwards to the operating system.  Native
handles are modelled as `Nat` with `0` for the null pointer; the handle
wrappers' truth test (defined in the library's OS-abstraction header,
which is not part of this repository's sources) is modelled from the
spec as a non-null check on the wrapped handle. -/
inductive OsCall
  | vSemaphoreDelete (h : Nat)
  | xSemaphoreGive (h : Nat)
  | xSemaphoreTake (h : Nat) (ticks : Nat)
  | vTaskDelete (h : Nat)
deriving DecidableEq

/-- Modelled from the spec: the OS abstraction's indefinite-wait sentinel
(the abstraction header is outside this repository's sources); its exact
value only selects which timeout means "wait forever". -/
def WAIT_FOREVER : Nat := 4294967295

/-- FreeRTOS `portMAX_DELAY` for a 32-bit tick type. -/
def portMAX_DELAY : Nat := 4294967295

/-- FreeRTOS `pdMS_TO_TICKS` at the default ESP-IDF tick rate of 100 Hz. -/
def pdMS_TO_TICKS (ms : Nat) : Nat := ms * 100 / 1000

/-- Embedding of `FreeRTOSBackend::semaphore_destroy`: forwards to
`vSemaphoreDelete` only for a non-null handle. -/
def semaphore_destroy (sem : Nat) : List OsCall :=
  if sem ≠ 0 then [OsCall.vSemaphoreDelete sem] else []

/-- Embedding of `FreeRTOSBackend::semaphore_give`: forwards to
`xSemaphoreGive` only for a non-null handle. -/
def semaphore_give (sem : Nat) : List OsCall :=
  if sem ≠ 0 then [OsCall.xSemaphoreGive sem] else []

/-- Embedding of `FreeRTOSBackend::semaphore_take`: a null handle is
never forwarded and reports not-acquired; otherwise the timeout is
converted to ticks and the OS's answer (`osAcquired`, standing for
`xSemaphoreTake == pdTRUE`) is returned. -/
def semaphore_take (sem : Nat) (timeout_ms : Nat) (osAcquired : Bool) :
    Bool × List OsCall :=
  if sem = 0 then (false, [])
  else
    let ticks := if timeout_ms = WAIT_FOREVER then portMAX_DELAY
      else pdMS_TO_TICKS timeout_ms
    (osAcquired, [OsCall.xSemaphoreTake sem ticks])

/-- Embedding of `FreeRTOSBackend::task_delete`: forwards the handle to
`vTaskDelete` with no null check. -/
def task_delete (task : Nat) : List OsCall :=
  [OsCall.vTaskDelete task]

/-- C1: the structured parser is claimed total and never to index past
`line.length()`, with out-of-range position computations falling back to
the payload-only result.  On `"E (5) x:"`, whose first colon after the
closing parenthesis is the final character, the source instead evaluates
`message[message_start + 1]` with `message_start + 1` equal to
`message.length()`, reading one past the end of the `string_view`; the
embedding marks that undefined read as a failed (`none`) parse. -/
theorem parse_reads_past_end_on_final_colon :
    dispatch_to_sinker ("E (5) x:".toList) = none := by decide

/-- C9: the empty-tag boundary line `"E (5) : oops"` parses with a
correctly bounded empty tag, payload exactly `"oops"`, level Error (and
timestamp boot + 5 ms). -/
theorem empty_tag_boundary_line :
    dispatch_to_sinker ("E (5) : oops".toList) =
      some ⟨Timestamp.bootMillis 5, LogLevel.Error, [], "oops".toList⟩ := by
  decide

/-- C3: a hook invocation that finds the per-context reentrancy flag
already set returns a zero result, leaves the context buffer unchanged,
flushes and dispatches nothing, and leaves the flag to the outer
invocation that owns it; an invocation that acquires the flag (entry with
the flag clear) exits with the flag reset to false on every path — the
formatting-failure early return (`input = none`) included — via the
scope-bound guard. -/
theorem hook_reentrancy_guard (buf : List Char) (inp : Option (List Char)) :
    (vprintf_hook true buf inp).ret = 0 ∧
    (vprintf_hook true buf inp).buf = buf ∧
    (vprintf_hook true buf inp).flushed = none ∧
    (vprintf_hook true buf inp).dispatched = [] ∧
    (vprintf_hook true buf inp).flag = true ∧
    (vprintf_hook false buf inp).flag = false := by
  refine ⟨rfl, rfl, rfl, rfl, rfl, ?_⟩
  cases inp with
  | none => rfl
  | some msg =>
    simp only [vprintf_hook]
    split
    · rfl
    · split <;> rfl

/-- C10: the FreeRTOS backend's semaphore operations tolerate a null
handle — destroy and give forward nothing to the OS, take reports
not-acquired without an OS call for every timeout — while `task_delete`
forwards any handle, the null handle included, to `vTaskDelete`. -/
theorem freertos_null_handle_handling :
    semaphore_destroy 0 = [] ∧ semaphore_give 0 = [] ∧
    (∀ t r, semaphore_take 0 t r = (false, [])) ∧
    (∀ h, task_delete h = [OsCall.vTaskDelete h]) :=
  ⟨rfl, rfl, fun _ _ => rfl, fun _ => rfl⟩

/-- C2 counterexample: the hook flushes only when the buffer's last
character is the terminator, so the single terminator-containing fragment
`"ab\ncd"` produces no completed line and leaves the buffer holding the
complete terminated line `"ab\n"` at rest — against the claim that a
terminator always triggers an immediate flush-and-clear. -/
theorem buffer_keeps_inner_terminator :
    feedAll [] ["ab\ncd".toList] = ("ab\ncd".toList, []) ∧
    '\n' ∈ "ab\ncd".toList := by decide

/-- C5 counterexample: calling `install(false)` on an already-installed
state with pass-through enabled is not a no-op — the pass-through flag
(whether the original callback keeps being invoked) is overwritten. -/
theorem install_changes_passthrough_when_installed :
    install false sampleInstalled ≠ sampleInstalled ∧
    (install false sampleInstalled).call_original = false ∧
    sampleInstalled.call_original = true := by decide

/-- C6 counterexample: the line `"E (5) TAG: \n"` is non-empty after
normalization and is dispatched, yet its parsed payload is empty — the
hook's emptiness guard applies to the normalized line, not to the payload
of the dispatched record. -/
theorem dispatched_record_with_empty_payload :
    (vprintf_hook false [] (some ("E (5) TAG: \n".toList))).dispatched =
      [some ⟨Timestamp.bootMillis 5, LogLevel.Error, "TAG".toList, []⟩] ∧
    cleanup_message ("E (5) TAG: \n".toList) ≠ [] := by decide

/-- C7 counterexample: `from_chars` accepts the digit prefix of the span
`"12abc"`, so the timestamp becomes boot + 12 ms rather than remaining
the wall-clock capture time the claim prescribes for this span. -/
theorem timestamp_accepts_digit_prefix :
    dispatch_to_sinker ("E (12abc) TAG: x".toList) =
      some ⟨Timestamp.bootMillis 12, LogLevel.Error, "TAG".toList,
        "x".toList⟩ ∧
    Timestamp.bootMillis 12 ≠ Timestamp.captureTime := by decide

/-- C8 counterexample: on a line whose first colon after the closing
parenthesis sits exactly at index 57, the source's
`(message_start + 1) == ':'` comparison (position against character code
58) makes the parser re-search from index 58 and split at the next colon:
the tag absorbs the first colon instead of ending at it. -/
theorem colon_at_57_shifts_split :
    dispatch_to_sinker ("E (5) ".toList ++ List.replicate 51 'a' ++
        ":X: rest".toList) =
      some ⟨Timestamp.bootMillis 5, LogLevel.Error,
        List.replicate 51 'a' ++ [':', 'X'], "rest".toList⟩ ∧
    List.replicate 51 'a' ++ [':', 'X'] ≠ List.replicate 51 'a' := by decide

/-- The escape-stripping loop leaves the empty string unchanged. -/
theorem escLoop_nil : escLoop [] 0 = [] := by
  rw [escLoop.eq_def]
  rfl

/-- The escape-stripping loop resuming at position 1 misses the escape
run `"\x1b["` that starts at position 0. -/
theorem escLoop_missed_start :
    escLoop [escChar, '[', '3', '1', 'm'] 1 = [escChar, '[', '3', '1', 'm'] := by
  rw [escLoop.eq_def]
  rfl

/-- From position 0 the run `"\x1b[31m"` is erased entirely. -/
theorem escLoop_erases_run : escLoop [escChar, '[', '3', '1', 'm'] 0 = [] := by
  rw [escLoop.eq_def]
  exact escLoop_nil

/-- On `escSplice` the loop erases the inner span and, resuming at the
erase position, misses the escape run the erasure spliced together. -/
theorem escLoop_escSplice :
    escLoop escSplice 0 = [escChar, '[', '3', '1', 'm'] := by
  rw [escLoop.eq_def]
  exact escLoop_missed_start

/-- Normalizing `escSplice` leaves the spliced-together run in place. -/
theorem cleanup_escSplice :
    cleanup_message escSplice = [escChar, '[', '3', '1', 'm'] := by
  have e1 : (findPairFrom escChar '[' escSplice 0).isSome = true := by decide
  simp only [cleanup_message, e1, if_true]
  rw [escLoop_escSplice]
  decide

/-- Normalizing the spliced-together run erases it. -/
theorem cleanup_spliced_run :
    cleanup_message [escChar, '[', '3', '1', 'm'] = [] := by
  have e1 : (findPairFrom escChar '[' [escChar, '[', '3', '1', 'm'] 0).isSome
      = true := by decide
  simp only [cleanup_message, e1, if_true]
  rw [escLoop_erases_run]
  decide

/-- C4 counterexample: `cleanup_message` is not idempotent.  It strips
exactly one trailing newline per application, so `"a\n\n"` normalizes to
`"a\n"` and only a second application reaches `"a"`; and erasing an
escape span can splice together a new escape run (`escSplice` normalizes
to `"\x1b[31m"`, which a second application erases). -/
theorem cleanup_not_idempotent :
    cleanup_message (cleanup_message ("a\n\n".toList)) ≠
      cleanup_message ("a\n\n".toList) ∧
    cleanup_message (cleanup_message escSplice) ≠ cleanup_message escSplice := by
  constructor
  · decide
  · rw [cleanup_escSplice, cleanup_spliced_run]
    decide

/-- If a string has no remaining erasable escape run, the stripping loop
returns it unchanged. -/
theorem escLoop_eq_self (s : List Char) (h : hasErasableEsc s = false) :
    escLoop s 0 = s := by
  rw [escLoop.eq_def]
  cases hp : findPairFrom escChar '[' s 0 with
  | none => simp only [hp]
  | some p =>
    simp only [hp]
    cases hm : findFrom 'm' s p with
    | none => simp only [hm]
    | some e =>
      simp only [hasErasableEsc, hp, hm] at h
      simp at h

/-- C4 amended: `cleanup_message` is idempotent on every input whose
normalization has no remaining erasable escape run and does not end in a
newline; by `cleanup_not_idempotent` neither restriction can be dropped. -/
theorem cleanup_idempotent_on_stable (x : List Char)
    (h1 : hasErasableEsc (cleanup_message x) = false)
    (h2 : (cleanup_message x).getLast? ≠ some '\n') :
    cleanup_message (cleanup_message x) = cleanup_message x := by
  have hfix := escLoop_eq_self (cleanup_message x) h1
  generalize hy : cleanup_message x = y at h1 h2 hfix ⊢
  simp only [cleanup_message]
  have hs1 : (if (findPairFrom escChar '[' y 0).isSome then escLoop y 0 else y)
      = y := by
    split
    · exact hfix
    · rfl
  rw [hs1, if_neg]
  intro hcon
  exact h2 hcon.2

/-- C4 witness: the hypotheses of `cleanup_idempotent_on_stable` hold for
`"a\n"` and the conclusion follows. -/
theorem cleanup_idempotent_witness :
    hasErasableEsc (cleanup_message ("a\n".toList)) = false ∧
    (cleanup_message ("a\n".toList)).getLast? ≠ some '\n' ∧
    cleanup_message (cleanup_message ("a\n".toList)) =
      cleanup_message ("a\n".toList) :=
  ⟨by decide, by decide,
    cleanup_idempotent_on_stable ("a\n".toList) (by decide) (by decide)⟩

/-- C5 amended: a second `install` in the Installed state leaves the
installed flag, the saved original callback and the platform's active
callback unchanged, but it always overwrites the pass-through flag with
its argument (the assignment precedes the installed check); and
`install(); install(); uninstall();` still restores the platform's
pre-install callback exactly once — the only `esp_log_set_vprintf` calls
of the cycle are the one swap-in of the hook and the one restore of the
captured pre-install callback. -/
theorem install_second_frame (s u : HookState) (co co1 co2 : Bool)
    (hs : s.installed = true) (hu : u.installed = false) :
    install co s = { s with call_original := co } ∧
    (install co2 (install co1 u)).original = (install co1 u).original ∧
    (install co2 (install co1 u)).active = (install co1 u).active ∧
    (install co2 (install co1 u)).installed = true ∧
    (uninstall (install co2 (install co1 u))).active = u.active ∧
    (uninstall (install co2 (install co1 u))).installed = false ∧
    (uninstall (install co2 (install co1 u))).original = Callback.null ∧
    (uninstall (install co2 (install co1 u))).vprintf_sets =
      u.vprintf_sets ++ [Callback.hook, u.active] := by
  simp [install, uninstall, hs, hu]

/-- C5 witness: `install_second_frame` applied to the concrete states
`sampleInstalled` and `sampleFresh`. -/
theorem install_second_frame_witness :
    sampleInstalled.installed = true ∧ sampleFresh.installed = false ∧
    (install false sampleInstalled = { sampleInstalled with
        call_original := false } ∧
      (install false (install true sampleFresh)).original =
        (install true sampleFresh).original ∧
      (install false (install true sampleFresh)).active =
        (install true sampleFresh).active ∧
      (install false (install true sampleFresh)).installed = true ∧
      (uninstall (install false (install true sampleFresh))).active =
        sampleFresh.active ∧
      (uninstall (install false (install true sampleFresh))).installed
        = false ∧
      (uninstall (install false (install true sampleFresh))).original =
        Callback.null ∧
      (uninstall (install false (install true sampleFresh))).vprintf_sets =
        sampleFresh.vprintf_sets ++ [Callback.hook, sampleFresh.active]) :=
  ⟨by decide, by decide,
    install_second_frame sampleInstalled sampleFresh false true false
      (by decide) (by decide)⟩

/-- C6 amended: whenever the hook flushes a completed line, it dispatches
nothing if the line is empty after normalization, and otherwise
dispatches exactly the parse of the normalized line — so empty normalized
lines are never dispatched, while a dispatched record's payload may
itself be empty (see `dispatched_record_with_empty_payload`). -/
theorem dispatch_skips_empty_normalized (fl : Bool) (buf : List Char)
    (inp : Option (List Char)) (f : List Char)
    (h : (vprintf_hook fl buf inp).flushed = some f) :
    (vprintf_hook fl buf inp).dispatched =
      if cleanup_message f = [] then []
      else [dispatch_to_sinker (cleanup_message f)] := by
  cases fl with
  | true => simp [vprintf_hook] at h
  | false =>
    cases inp with
    | none => simp [vprintf_hook] at h
    | some msg =>
      have hh : vprintf_hook false buf (some msg) =
          (if (buf ++ msg).getLast? = some '\n' then
            ⟨msg.length, false, [], some (buf ++ msg),
              if cleanup_message (buf ++ msg) = [] then []
              else [dispatch_to_sinker (cleanup_message (buf ++ msg))]⟩
          else ⟨msg.length, false, buf ++ msg, none, []⟩) := rfl
      rw [hh] at h ⊢
      by_cases hc : (buf ++ msg).getLast? = some '\n'
      · rw [if_pos hc] at h ⊢
        simp only [Option.some.injEq] at h
        subst h
        rfl
      · rw [if_neg hc] at h
        simp at h

/-- C6 witness: the lone terminator fragment flushes the line `"\n"`,
which normalizes to the empty line, and nothing is dispatched. -/
theorem dispatch_skips_empty_normalized_witness :
    (vprintf_hook false [] (some ("\n".toList))).flushed =
      some ("\n".toList) ∧
    (vprintf_hook false [] (some ("\n".toList))).dispatched =
      (if cleanup_message ("\n".toList) = [] then []
       else [dispatch_to_sinker (cleanup_message ("\n".toList))]) :=
  ⟨by decide,
    dispatch_skips_empty_normalized false [] (some ("\n".toList))
      ("\n".toList) (by decide)⟩

/-- Unfolding of the hook on the non-reentrant path: append, then flush
exactly when the buffer's last character is the terminator. -/
theorem vprintf_hook_false_eq (buf msg : List Char) :
    vprintf_hook false buf (some msg) =
      (if (buf ++ msg).getLast? = some '\n' then
        ⟨msg.length, false, [], some (buf ++ msg),
          if cleanup_message (buf ++ msg) = [] then []
          else [dispatch_to_sinker (cleanup_message (buf ++ msg))]⟩
      else ⟨msg.length, false, buf ++ msg, none, []⟩) := rfl

/-- A value returned by `getLast?` is a member of the list. -/
theorem mem_of_getLast?_eq (l : List Char) (c : Char)
    (h : l.getLast? = some c) : c ∈ l := by
  obtain ⟨hne, rfl⟩ := List.mem_getLast?_eq_getLast (l := l) (x := c) h
  exact List.getLast_mem hne

/-- Appending a terminator-free fragment to a buffer that does not end in
the terminator yields a buffer that does not end in the terminator. -/
theorem getLast?_append_no_newline (buf f : List Char) (hf : '\n' ∉ f)
    (hb : buf.getLast? ≠ some '\n') : (buf ++ f).getLast? ≠ some '\n' := by
  by_cases hn : f = []
  · subst hn
    simpa using hb
  · rw [List.getLast?_append_of_ne_nil buf hn]
    intro hcon
    exact hf (mem_of_getLast?_eq f '\n' hcon)

/-- Feeding only terminator-free fragments never flushes: the buffer
accumulates their concatenation and no completed line is produced. -/
theorem feedAll_no_flush (fs : List (List Char)) :
    ∀ buf, (∀ g ∈ fs, '\n' ∉ g) → buf.getLast? ≠ some '\n' →
      feedAll buf fs = (buf ++ fs.flatten, []) := by
  induction fs with
  | nil => intro buf _ _; simp [feedAll]
  | cons f fs ih =>
    intro buf hall hb
    have hf : '\n' ∉ f := hall f (by simp)
    have hbf : (buf ++ f).getLast? ≠ some '\n' :=
      getLast?_append_no_newline buf f hf hb
    simp only [feedAll, vprintf_hook_false_eq]
    rw [if_neg hbf]
    rw [ih (buf ++ f) (fun g hg => hall g (by simp [hg])) hbf]
    simp

/-- The line-accumulation of `feedAll` over an appended fragment list is
the composition of the runs over the two parts. -/
theorem feedAll_append (as bs : List (List Char)) :
    ∀ buf, feedAll buf (as ++ bs) =
      ((feedAll (feedAll buf as).1 bs).1,
        (feedAll buf as).2 ++ (feedAll (feedAll buf as).1 bs).2) := by
  induction as with
  | nil => intro buf; simp [feedAll]
  | cons a as ih =>
    intro buf
    simp only [List.cons_append, feedAll, List.append_eq]
    rw [ih]
    simp [List.append_assoc]

/-- A fragment that makes the buffer end in the terminator flushes the
whole buffer as one completed line and empties the buffer. -/
theorem feedAll_single_flush (buf f : List Char)
    (h : (buf ++ f).getLast? = some '\n') :
    feedAll buf [f] = ([], [buf ++ f]) := by
  simp only [feedAll, vprintf_hook_false_eq]
  rw [if_pos h]
  simp [feedAll]

/-- C2 amended: feeding any terminator-free fragments and then one final
fragment that ends with the terminator yields exactly one completed line,
equal to the concatenation of all fragments, with the buffer empty
afterwards.  The flush condition is that the buffer's last character is a
terminator, so (see `buffer_keeps_inner_terminator`) a terminator that is
not the last character of its fragment does not flush, and the buffer can
hold a complete terminated line at rest. -/
theorem feed_reassembly (fs : List (List Char)) (f : List Char)
    (h1 : ∀ g ∈ fs, '\n' ∉ g) (h2 : f.getLast? = some '\n') :
    feedAll [] (fs ++ [f]) = ([], [fs.flatten ++ f]) := by
  have hfn : f ≠ [] := by
    intro hf
    rw [hf] at h2
    simp at h2
  have hl : (fs.flatten ++ f).getLast? = some '\n' := by
    rw [List.getLast?_append_of_ne_nil _ hfn]
    exact h2
  rw [feedAll_append fs [f] []]
  rw [feedAll_no_flush fs [] h1 (by simp)]
  simp only [List.nil_append]
  rw [feedAll_single_flush fs.flatten f hl]

/-- C2 witness: `feed_reassembly` at the fragments `"ab"`, `"c"` and the
terminated fragment `"d\n"`. -/
theorem feed_reassembly_witness :
    (∀ g ∈ (["ab".toList, "c".toList] : List (List Char)), '\n' ∉ g) ∧
    ("d\n".toList).getLast? = some '\n' ∧
    feedAll [] (["ab".toList, "c".toList] ++ ["d\n".toList]) =
      ([], [(["ab".toList, "c".toList] : List (List Char)).flatten ++
        "d\n".toList]) :=
  ⟨by decide, by decide,
    feed_reassembly ["ab".toList, "c".toList] ("d\n".toList)
      (by decide) (by decide)⟩

/-- Searching from a position is searching the dropped suffix shifted
back. -/
theorem findFrom_shift (c : Char) : ∀ (s : List Char) (pos : Nat),
    findFrom c s pos = (findFrom c (s.drop pos) 0).map (· + pos) := by
  intro s
  induction s with
  | nil => intro pos; simp [findFrom]
  | cons x xs ih =>
    intro pos
    cases pos with
    | zero =>
      simp only [List.drop_zero]
      cases findFrom c (x :: xs) 0 <;> simp
    | succ n =>
      simp only [findFrom, List.drop_succ_cons]
      rw [ih n]
      cases findFrom c (xs.drop n) 0 <;> simp
      omega

/-- The first occurrence of `c` in `S ++ c :: r` with `c ∉ S` is right at
the end of `S`. -/
theorem findFrom_not_mem_append (c : Char) : ∀ (S r : List Char), c ∉ S →
    findFrom c (S ++ c :: r) 0 = some S.length := by
  intro S
  induction S with
  | nil => intro r _; simp [findFrom]
  | cons x xs ih =>
    intro r hx
    have hxc : ¬(x = c) := fun h => hx (by simp [h])
    simp only [List.cons_append, findFrom, if_neg hxc, List.append_eq]
    rw [ih r (fun h => hx (by simp [h]))]
    simp

/-- Indexing past a dropped prefix. -/
theorem get?_of_drop (s : List Char) (n m : Nat) :
    s.get? (n + m) = (s.drop n).get? m := by
  rw [List.get?_eq_getElem?, List.get?_eq_getElem?, List.getElem?_drop]

/-- Stepping a search from position 0 over a non-matching head. -/
theorem findFrom_cons_ne (c x : Char) (xs : List Char) (h : ¬(x = c)) :
    findFrom c (x :: xs) 0 = (findFrom c xs 0).map (· + 1) := by
  simp only [findFrom, if_neg h]

/-- Characterization of the structured parse on well-formed lines
`<L> (<S>) <t>:<q>`: a severity character `L`, any parenthesis span `S`
free of `')'`, a colon-free tag `t`, and a nonempty remainder `q` after
the split colon.  The timestamp is `tsOf S` (capture time unless the span
parses), the tag is exactly `t`, and the payload is `q` with one leading
space skipped.  The position hypothesis keeps the split colon away from
absolute index 57, where the source's position-against-character-code
comparison moves the split (see `colon_at_57_shifts_split`). -/
theorem parse_line_shape (L : Char) (S t q : List Char)
    (hL : L = 'E' ∨ L = 'W' ∨ L = 'I' ∨ L = 'D' ∨ L = 'V')
    (hS : ')' ∉ S) (ht : ':' ∉ t) (hq : q ≠ [])
    (h57 : S.length + t.length ≠ 52) :
    dispatch_to_sinker
        (L :: ' ' :: '(' :: (S ++ ')' :: ' ' :: (t ++ ':' :: q))) =
      some ⟨tsOf S, levelOf L, t, payloadOf q⟩ := by
  obtain ⟨c, q', rfl⟩ : ∃ c q', q = c :: q' := by
    cases q with
    | nil => exact absurd rfl hq
    | cons c q' => exact ⟨c, q', rfl⟩
  have hLne : ¬(L = '(') := by
    rcases hL with rfl | rfl | rfl | rfl | rfl <;> decide
  have hlen : (L :: ' ' :: '(' ::
      (S ++ ')' :: ' ' :: (t ++ ':' :: (c :: q')))).length
      = S.length + t.length + q'.length + 7 := by
    simp [List.length_append]
    omega
  have hfind1 : findFrom '(' (L :: ' ' :: '(' ::
      (S ++ ')' :: ' ' :: (t ++ ':' :: (c :: q')))) 0 = some 2 := by
    rw [findFrom_cons_ne '(' L _ hLne]
    rfl
  have hdropS3 : (L :: ' ' :: '(' ::
      (S ++ ')' :: ' ' :: (t ++ ':' :: (c :: q')))).drop (S.length + 3)
      = ')' :: ' ' :: (t ++ ':' :: (c :: q')) := by
    rw [show S.length + 3 = 3 + S.length from Nat.add_comm _ _]
    rw [← List.drop_drop S.length 3]
    rw [show (L :: ' ' :: '(' ::
      (S ++ ')' :: ' ' :: (t ++ ':' :: (c :: q')))).drop 3
      = S ++ ')' :: ' ' :: (t ++ ':' :: (c :: q')) from rfl]
    exact List.drop_left S _
  have hfind2 : findFrom ')' (L :: ' ' :: '(' ::
      (S ++ ')' :: ' ' :: (t ++ ':' :: (c :: q')))) 2 = some (S.length + 3) := by
    rw [findFrom_shift]
    rw [show (L :: ' ' :: '(' ::
      (S ++ ')' :: ' ' :: (t ++ ':' :: (c :: q')))).drop 2
      = '(' :: (S ++ ')' :: ' ' :: (t ++ ':' :: (c :: q'))) from rfl]
    rw [findFrom_cons_ne ')' '(' _ (by decide)]
    rw [findFrom_not_mem_append ')' S _ hS]
    simp only [Option.map_some']
  have hfind3 : findFrom ':' (L :: ' ' :: '(' ::
      (S ++ ')' :: ' ' :: (t ++ ':' :: (c :: q')))) (S.length + 3)
      = some (S.length + t.length + 5) := by
    rw [findFrom_shift, hdropS3]
    rw [findFrom_cons_ne ':' ')' _ (by decide)]
    rw [findFrom_cons_ne ':' ' ' _ (by decide)]
    rw [findFrom_not_mem_append ':' t _ ht]
    simp only [Option.map_some']
    congr 1
    omega
  simp only [dispatch_to_sinker]
  rw [if_pos ?hcond]
  case hcond =>
    refine ⟨by rw [hlen]; omega, rfl, ?_⟩
    rcases hL with rfl | rfl | rfl | rfl | rfl
    · exact Or.inl rfl
    · exact Or.inr (Or.inl rfl)
    · exact Or.inr (Or.inr (Or.inl rfl))
    · exact Or.inr (Or.inr (Or.inr (Or.inl rfl)))
    · exact Or.inr (Or.inr (Or.inr (Or.inr rfl)))
  simp only [List.get?_cons_zero, hfind1, hfind2, hfind3]
  have h58 : ¬(S.length + t.length + 5 + 1 = 58) := by omega
  rw [if_neg h58]
  have hdropS5 : (L :: ' ' :: '(' ::
      (S ++ ')' :: ' ' :: (t ++ ':' :: (c :: q')))).drop (S.length + 5)
      = t ++ ':' :: (c :: q') := by
    rw [show S.length + 5 = S.length + 3 + 2 from by omega]
    rw [← List.drop_drop 2 (S.length + 3), hdropS3]
    rfl
  have hget1 : (L :: ' ' :: '(' ::
      (S ++ ')' :: ' ' :: (t ++ ':' :: (c :: q')))).get? (S.length + 3 + 1)
      = some ' ' := by
    rw [get?_of_drop _ (S.length + 3) 1, hdropS3]
    rfl
  have hget2 : (L :: ' ' :: '(' ::
      (S ++ ')' :: ' ' :: (t ++ ':' :: (c :: q')))).get?
        (S.length + t.length + 5 + 1) = some c := by
    rw [show S.length + t.length + 5 + 1 = (S.length + 5) + (t.length + 1)
      from by omega]
    rw [get?_of_drop _ (S.length + 5) (t.length + 1), hdropS5]
    rw [List.get?_append_right (by omega)]
    rw [show t.length + 1 - t.length = 1 from by omega]
    rfl
  have hts : (if S.length + 3 > 2 + 1 then
      (match parseUnsigned (List.take (S.length + 3 - (2 + 1))
          (List.drop (2 + 1) (L :: ' ' :: '(' ::
            (S ++ ')' :: ' ' :: (t ++ ':' :: (c :: q')))))) with
       | some v => Timestamp.bootMillis v
       | none => Timestamp.captureTime)
      else Timestamp.captureTime) = tsOf S := by
    by_cases hS0 : S = []
    · subst hS0
      rw [if_neg (by simp)]
      simp [tsOf, parseUnsigned]
    · rw [if_pos (by have := List.length_pos.mpr hS0; omega)]
      rw [show List.drop (2 + 1) (L :: ' ' :: '(' ::
        (S ++ ')' :: ' ' :: (t ++ ':' :: (c :: q'))))
        = S ++ ')' :: ' ' :: (t ++ ':' :: (c :: q')) from rfl]
      rw [show S.length + 3 - (2 + 1) = S.length from by omega]
      rw [List.take_left]
      rfl
  have htag : (if S.length + 3 + 2 < S.length + t.length + 5 then
      List.take (S.length + t.length + 5 - (S.length + 3 + 2))
        (List.drop (S.length + 3 + 2) (L :: ' ' :: '(' ::
          (S ++ ')' :: ' ' :: (t ++ ':' :: (c :: q')))))
      else []) = t := by
    by_cases ht0 : t = []
    · subst ht0
      rw [if_neg (by simp)]
    · rw [if_pos (by have := List.length_pos.mpr ht0; omega)]
      rw [show List.drop (S.length + 3 + 2) (L :: ' ' :: '(' ::
        (S ++ ')' :: ' ' :: (t ++ ':' :: (c :: q'))))
        = t ++ ':' :: (c :: q') from by
          rw [show S.length + 3 + 2 = S.length + 5 from by omega]
          exact hdropS5]
      rw [show S.length + t.length + 5 - (S.length + 3 + 2) = t.length
        from by omega]
      exact List.take_left t _
  have hpay : List.drop (if c = ' ' then S.length + t.length + 5 + 2
        else S.length + t.length + 5 + 1)
      (L :: ' ' :: '(' :: (S ++ ')' :: ' ' :: (t ++ ':' :: (c :: q'))))
      = payloadOf (c :: q') := by
    by_cases hc : c = ' '
    · subst hc
      rw [if_pos rfl]
      rw [show S.length + t.length + 5 + 2 = S.length + 5 + (t.length + 2)
        from by omega]
      rw [← List.drop_drop (t.length + 2) (S.length + 5), hdropS5]
      rw [← List.drop_drop 2 t.length, List.drop_left]
      simp [payloadOf]
    · rw [if_neg hc]
      rw [show S.length + t.length + 5 + 1 = S.length + 5 + (t.length + 1)
        from by omega]
      rw [← List.drop_drop (t.length + 1) (S.length + 5), hdropS5]
      rw [← List.drop_drop 1 t.length, List.drop_left]
      simp [payloadOf, hc]
  have hc1 : (S.length + 3 + 1 < (L :: ' ' :: '(' ::
      (S ++ ')' :: ' ' :: (t ++ ':' :: (c :: q')))).length) = True :=
    eq_true (by rw [hlen]; omega)
  have hc2 : (S.length + t.length + 5 < (L :: ' ' :: '(' ::
      (S ++ ')' :: ' ' :: (t ++ ':' :: (c :: q')))).length) = True :=
    eq_true (by rw [hlen]; omega)
  simp only [hc1, hc2, if_true, hget1, hget2, hts, htag, hpay]

/-- Dropping the severity prefix and the parenthesis span lands right on
the closing parenthesis. -/
theorem line_drop_paren (L : Char) (S rest : List Char) :
    (L :: ' ' :: '(' :: (S ++ ')' :: rest)).drop (S.length + 3)
      = ')' :: rest := by
  rw [show S.length + 3 = 3 + S.length from Nat.add_comm _ _]
  rw [← List.drop_drop S.length 3]
  rw [show (L :: ' ' :: '(' :: (S ++ ')' :: rest)).drop 3 = S ++ ')' :: rest
    from rfl]
  exact List.drop_left S _

/-- The first colon at or after the closing parenthesis of a line
`<L> (<S>) <t>:<q>` with a colon-free tag is the split colon, at index
`S.length + t.length + 5`. -/
theorem first_colon_position (L : Char) (S t q : List Char) (ht : ':' ∉ t) :
    findFrom ':' (L :: ' ' :: '(' :: (S ++ ')' :: ' ' :: (t ++ ':' :: q)))
        (S.length + 3) = some (S.length + t.length + 5) := by
  rw [findFrom_shift]
  rw [line_drop_paren L S (' ' :: (t ++ ':' :: q))]
  rw [findFrom_cons_ne ':' ')' _ (by decide)]
  rw [findFrom_cons_ne ':' ' ' _ (by decide)]
  rw [findFrom_not_mem_append ':' t _ ht]
  simp only [Option.map_some', Option.some.injEq]
  omega

/-- A search for an absent character fails. -/
theorem findFrom_not_mem (c : Char) : ∀ (s : List Char), c ∉ s →
    findFrom c s 0 = none := by
  intro s
  induction s with
  | nil => intro _; rfl
  | cons x xs ih =>
    intro h
    have hx : ¬(x = c) := fun he => h (by simp [he])
    rw [findFrom_cons_ne c x xs hx, ih (fun hm => h (by simp [hm]))]
    rfl

/-- C8 amended: on a severity line `<L> (<S>) <t>:<q>` the tag/payload
split happens at the first `':'` after the closing `')'` — located at
absolute index `S.length + t.length + 5`, with the tag the text between
`") "` and that colon and the payload everything after it with one
leading space skipped — provided that index is not 57.  When the first
colon sits exactly at index 57 the source's position-against-character-
code comparison makes it re-search from index 58 and split at the next
colon instead (see `colon_at_57_shifts_split`). -/
theorem split_at_first_colon (L : Char) (S t q : List Char)
    (hL : L = 'E' ∨ L = 'W' ∨ L = 'I' ∨ L = 'D' ∨ L = 'V')
    (hS : ')' ∉ S) (ht : ':' ∉ t) (hq : q ≠ [])
    (h57 : S.length + t.length + 5 ≠ 57) :
    findFrom ':' (L :: ' ' :: '(' :: (S ++ ')' :: ' ' :: (t ++ ':' :: q)))
        (S.length + 3) = some (S.length + t.length + 5) ∧
    dispatch_to_sinker
        (L :: ' ' :: '(' :: (S ++ ')' :: ' ' :: (t ++ ':' :: q))) =
      some ⟨tsOf S, levelOf L, t, payloadOf q⟩ :=
  ⟨first_colon_position L S t q ht,
    parse_line_shape L S t q hL hS ht hq (by omega)⟩

/-- C8 witness: `split_at_first_colon` at `"E (5) TAG: rest"`. -/
theorem split_at_first_colon_witness :
    findFrom ':' ('E' :: ' ' :: '(' :: ("5".toList ++ ')' :: ' ' ::
        ("TAG".toList ++ ':' :: " rest".toList)))
        ("5".toList.length + 3)
      = some ("5".toList.length + "TAG".toList.length + 5) ∧
    dispatch_to_sinker ('E' :: ' ' :: '(' :: ("5".toList ++ ')' :: ' ' ::
        ("TAG".toList ++ ':' :: " rest".toList))) =
      some ⟨tsOf "5".toList, levelOf 'E', "TAG".toList,
        payloadOf " rest".toList⟩ :=
  split_at_first_colon 'E' "5".toList "TAG".toList " rest".toList
    (Or.inl rfl) (by decide) (by decide) (by decide) (by decide)

/-- C7 amended: the span between `'('` and `')'` feeds the timestamp
only when the structural parse succeeds, which requires locating a `':'`
at or after the closing parenthesis: on a colon-free remainder (line
`<L> (<S>)<rest>` with no colon in the remainder) the whole line falls
back to the payload-only result and the timestamp stays the wall-clock
capture time even when the span is numeric.  When the structural parse
succeeds (split-colon lines `<L> (<S>) <t>:<q>`, away from the
colon-final and colon-at-57 boundary families recorded by C1 and C8),
the span is parsed in `from_chars` style as an unsigned-integer prefix:
a span beginning with a digit yields the value of its maximal digit run
(`"12abc"` yields boot + 12 ms, not a failure), and only a span that is
empty, begins with a non-digit, or whose digit run overflows leaves the
capture time, while the rest of the parse still succeeds. -/
theorem timestamp_prefix_semantics (L : Char) (S t q rest : List Char)
    (hL : L = 'E' ∨ L = 'W' ∨ L = 'I' ∨ L = 'D' ∨ L = 'V')
    (hS : ')' ∉ S) (ht : ':' ∉ t) (hq : q ≠ [])
    (h57 : S.length + t.length ≠ 52)
    (hrest : ':' ∉ rest) (hne : 0 < S.length + rest.length) :
    dispatch_to_sinker
        (L :: ' ' :: '(' :: (S ++ ')' :: ' ' :: (t ++ ':' :: q))) =
      some ⟨tsOf S, levelOf L, t, payloadOf q⟩ ∧
    dispatch_to_sinker (L :: ' ' :: '(' :: (S ++ ')' :: rest)) =
      some ⟨Timestamp.captureTime, levelOf L, [],
        L :: ' ' :: '(' :: (S ++ ')' :: rest)⟩ ∧
    (∀ v, parseUnsigned S = some v → tsOf S = Timestamp.bootMillis v) ∧
    (parseUnsigned S = none → tsOf S = Timestamp.captureTime) ∧
    parseUnsigned ("12abc".toList) = some 12 ∧
    parseUnsigned ("abc".toList) = none ∧
    parseUnsigned [] = none := by
  refine ⟨parse_line_shape L S t q hL hS ht hq h57, ?_, ?_, ?_,
    by decide, by decide, by decide⟩
  · have hLne : ¬(L = '(') := by
      rcases hL with rfl | rfl | rfl | rfl | rfl <;> decide
    have hlen : (L :: ' ' :: '(' :: (S ++ ')' :: rest)).length
        = S.length + rest.length + 4 := by
      simp [List.length_append]
      omega
    have hfind1 : findFrom '(' (L :: ' ' :: '(' :: (S ++ ')' :: rest)) 0
        = some 2 := by
      rw [findFrom_cons_ne '(' L _ hLne]
      rfl
    have hfind2 : findFrom ')' (L :: ' ' :: '(' :: (S ++ ')' :: rest)) 2
        = some (S.length + 3) := by
      rw [findFrom_shift]
      rw [show (L :: ' ' :: '(' :: (S ++ ')' :: rest)).drop 2
        = '(' :: (S ++ ')' :: rest) from rfl]
      rw [findFrom_cons_ne ')' '(' _ (by decide)]
      rw [findFrom_not_mem_append ')' S _ hS]
      simp only [Option.map_some']
    have hms0 : findFrom ':' (L :: ' ' :: '(' :: (S ++ ')' :: rest))
        (S.length + 3) = none := by
      rw [findFrom_shift, line_drop_paren L S rest]
      rw [findFrom_cons_ne ':' ')' _ (by decide)]
      rw [findFrom_not_mem ':' rest hrest]
      rfl
    simp only [dispatch_to_sinker]
    rw [if_pos ?hcond]
    case hcond =>
      refine ⟨by rw [hlen]; omega, rfl, ?_⟩
      rcases hL with rfl | rfl | rfl | rfl | rfl
      · exact Or.inl rfl
      · exact Or.inr (Or.inl rfl)
      · exact Or.inr (Or.inr (Or.inl rfl))
      · exact Or.inr (Or.inr (Or.inr (Or.inl rfl)))
      · exact Or.inr (Or.inr (Or.inr (Or.inr rfl)))
    simp only [List.get?_cons_zero, hfind1, hfind2, hms0]
  · intro v hv
    simp [tsOf, hv]
  · intro hv
    simp [tsOf, hv]

/-- C7 witness: `timestamp_prefix_semantics` with the span `"12abc"`
(parsing to 12), the split-colon line `"E (12abc) TAG: x"`, and the
colon-free line `"E (12abc) hello"` that keeps capture time despite its
numeric span prefix. -/
theorem timestamp_prefix_semantics_witness :
    (dispatch_to_sinker ('E' :: ' ' :: '(' :: ("12abc".toList ++ ')' ::
        ' ' :: ("TAG".toList ++ ':' :: " x".toList))) =
      some ⟨tsOf "12abc".toList, levelOf 'E', "TAG".toList,
        payloadOf " x".toList⟩ ∧
    dispatch_to_sinker ('E' :: ' ' :: '(' ::
        ("12abc".toList ++ ')' :: " hello".toList)) =
      some ⟨Timestamp.captureTime, levelOf 'E', [],
        'E' :: ' ' :: '(' :: ("12abc".toList ++ ')' :: " hello".toList)⟩ ∧
    (∀ v, parseUnsigned "12abc".toList = some v →
      tsOf "12abc".toList = Timestamp.bootMillis v) ∧
    (parseUnsigned "12abc".toList = none →
      tsOf "12abc".toList = Timestamp.captureTime) ∧
    parseUnsigned ("12abc".toList) = some 12 ∧
    parseUnsigned ("abc".toList) = none ∧
    parseUnsigned [] = none) ∧
    tsOf "12abc".toList = Timestamp.bootMillis 12 :=
  ⟨timestamp_prefix_semantics 'E' "12abc".toList "TAG".toList " x".toList
    " hello".toList (Or.inl rfl) (by decide) (by decide) (by decide)
    (by decide) (by decide) (by decide),
   by decide⟩

end Loggable
